import Mathlib

/-!
Verification development for the raffle engine of the pretix-cliques plugin
(`pretix_cliques/tasks.py` together with the model declarations of
`pretix_cliques/models.py`).

The two tasks `run_raffle` and `run_rejection` are embedded as pure
functions over an in-memory snapshot of the order data.  Database queries
become list filters, the Django ORM aggregate subqueries become counting
functions, and the two external collaborators (`approve_order` /
`deny_order` side effects and the task progress channel) are modelled as an
outcome oracle and an explicit event trace.  The random shuffle of
non-preferred unit keys is modelled by quantifying over permutations.
-/

namespace PretixCliques

/-- Status of a pretix order.  The engine only distinguishes `pending`
from the rest (`status=Order.STATUS_PENDING` in the queries). -/
inductive OrderStatus
  | pending
  | paid
  | expired
  | canceled
deriving DecidableEq, Repr

/-- A line item (`OrderPosition`): the subevent it targets (absent for
events without subevents), whether the product is an admission ticket, and
whether the position is canceled.  The pretix default manager
`OrderPosition.objects` used by both subqueries excludes canceled
positions. -/
structure OrderPosition where
  subevent : Option Nat
  admission : Bool
  canceled : Bool
deriving DecidableEq, Repr

/-- A reservation (`Order`) snapshot with the attributes the engine reads:
identity `code`, `status`, `require_approval`, its positions, an optional
clique membership (`orderclique.clique_id`) and an optional raffle
override mode (`raffle_override.mode`; `none` models
`OrderRaffleOverride.DoesNotExist`). -/
structure Order where
  code : String
  status : OrderStatus
  require_approval : Bool
  positions : List OrderPosition
  clique_id : Option Nat
  raffle_override : Option String
deriving DecidableEq, Repr

/-- `OrderRaffleOverride.MODE_ALWAYS` from `models.py`. -/
def MODE_ALWAYS : String := "always"

/-- `OrderRaffleOverride.MODE_NEVER` from `models.py`. -/
def MODE_NEVER : String := "never"

/-- `OrderRaffleOverride.MODE_NORMAL` from `models.py`. -/
def MODE_NORMAL : String := "chance"

/-- The `subevent_count` aggregate of `run_raffle` / `run_rejection`:
number of non-canceled admission positions of the order targeting the
given subevent (`pcnt_subevent` annotation, the per-order ticket count). -/
def pcnt_subevent (subevent_id : Option Nat) (o : Order) : Nat :=
  (o.positions.filter fun p =>
    p.admission && !p.canceled && p.subevent == subevent_id).length

/-- The `other_subevent_count` aggregate of `run_raffle`: number of
non-canceled admission positions of the order targeting any other
subevent.  The SQL subquery yields NULL exactly when this count is zero,
so the `pcnt_othersub__isnull=True` filter is the condition
`pcnt_othersub = 0`. -/
def pcnt_othersub (subevent_id : Option Nat) (o : Order) : Nat :=
  (o.positions.filter fun p =>
    p.admission && !p.canceled && p.subevent != subevent_id).length

/-- The eligibility filter of `run_raffle` (`eligible_orders` queryset):
`pcnt_othersub` NULL, `pcnt_subevent >= 1`, `require_approval=True`,
`status=Order.STATUS_PENDING`. -/
def eligibleRaffle (subevent_id : Option Nat) (o : Order) : Bool :=
  pcnt_othersub subevent_id o == 0 &&
  decide (1 ≤ pcnt_subevent subevent_id o) &&
  o.require_approval &&
  (o.status == OrderStatus.pending)

/-- The `eligible_orders` list of `run_raffle`, as a filter over the
event's order snapshot. -/
def eligible_orders (subevent_id : Option Nat) (orders : List Order) :
    List Order :=
  orders.filter (eligibleRaffle subevent_id)

/-- A raffle unit key: `('clique', clique_id)` for an order with a clique
membership, `('order', order.code)` for a singleton. -/
inductive UnitKey
  | clique (id : Nat)
  | order (code : String)
deriving DecidableEq, Repr

/-- The unit key an order is filed under by the grouping loop of
`run_raffle`. -/
def unitKey (o : Order) : UnitKey :=
  match o.clique_id with
  | some cid => UnitKey.clique cid
  | none => UnitKey.order o.code

/-- Add an element to the back of a list unless already present; models
`set.add` while recording Python's deterministic-per-run iteration order
as insertion order (theorems quantify over permutations of it). -/
def insertNew {α : Type} [DecidableEq α] (l : List α) (a : α) : List α :=
  if a ∈ l then l else l ++ [a]

/-- Append an order to the list stored under a key, creating the entry at
the back if absent; models `defaultdict(list)` item append with dict
insertion order. -/
def appendAt (m : List (UnitKey × List Order)) (k : UnitKey) (o : Order) :
    List (UnitKey × List Order) :=
  match m with
  | [] => [(k, [o])]
  | (k', v) :: rest =>
    if k' = k then (k', v ++ [o]) :: rest else (k', v) :: appendAt rest k o

/-- State accumulated by the grouping / override loop of `run_raffle`:
`clique_ids_remove`, `raffle_keys_prefer` and `raffle_tickets`. -/
structure RaffleState where
  clique_ids_remove : List Nat
  raffle_keys_prefer : List UnitKey
  raffle_tickets : List (UnitKey × List Order)
deriving DecidableEq, Repr

/-- The empty initial `RaffleState`. -/
def state0 : RaffleState := ⟨[], [], []⟩

/-- One iteration of the grouping loop of `run_raffle`: a NEVER override
marks the whole clique for removal (a NEVER singleton is simply skipped);
otherwise the order is appended to its unit and an ALWAYS override marks
the unit key as preferred.  An absent override (`none`) and any mode other
than `never` / `always` take the same path as `chance`. -/
def resolveStep (st : RaffleState) (o : Order) : RaffleState :=
  if o.raffle_override = some MODE_NEVER then
    match o.clique_id with
    | some cid =>
      { st with clique_ids_remove := insertNew st.clique_ids_remove cid }
    | none => st
  else
    { st with
      raffle_tickets := appendAt st.raffle_tickets (unitKey o) o
      raffle_keys_prefer :=
        if o.raffle_override = some MODE_ALWAYS then
          insertNew st.raffle_keys_prefer (unitKey o)
        else st.raffle_keys_prefer }

/-- The grouping loop of `run_raffle` over a list of eligible orders. -/
def resolveOrders : RaffleState → List Order → RaffleState
  | st, [] => st
  | st, o :: rest => resolveOrders (resolveStep st o) rest

/-- Whether a unit key is deleted by the NEVER-removal loop (only clique
keys with a marked clique id are). -/
def keyRemoved (removeIds : List Nat) : UnitKey → Bool
  | UnitKey.clique cid => removeIds.contains cid
  | UnitKey.order _ => false

/-- The removal loop of `run_raffle`: every marked clique key is deleted
from `raffle_tickets` and discarded from `raffle_keys_prefer` (a key in
the preferred set always also has a ticket entry, so the `KeyError`
branch never skips a preferred-set removal). -/
def applyRemovals (st : RaffleState) : RaffleState :=
  { st with
    raffle_tickets :=
      st.raffle_tickets.filter fun kv => !keyRemoved st.clique_ids_remove kv.1
    raffle_keys_prefer :=
      st.raffle_keys_prefer.filter fun k => !keyRemoved st.clique_ids_remove k }

/-- The full grouping and override resolution of `run_raffle` on the
eligible orders for a subevent. -/
def groupEligible (subevent_id : Option Nat) (orders : List Order) :
    RaffleState :=
  applyRemovals (resolveOrders state0 (eligible_orders subevent_id orders))

/-- Dictionary lookup `raffle_tickets[k]`; an absent key yields the empty
list (`defaultdict`). -/
def lookupTickets (m : List (UnitKey × List Order)) (k : UnitKey) :
    List Order :=
  match m with
  | [] => []
  | (k', v) :: rest => if k' = k then v else lookupTickets rest k

/-- The `n_tickets` of a popped unit: the sum of the `pcnt_subevent`
annotations of its member orders. -/
def unitTickets (subevent_id : Option Nat) (orders : List Order) : Nat :=
  (orders.map (pcnt_subevent subevent_id)).sum

/-- The keys of `raffle_tickets` that are not preferred
(`raffle_keys_not_preferred` in `run_raffle`), in dict order; theorems
quantify over its shuffles. -/
def raffle_keys_not_preferred (st : RaffleState) : List UnitKey :=
  (st.raffle_tickets.map Prod.fst).filter fun k =>
    !st.raffle_keys_prefer.contains k

/-- A `raffle_order` list as built by `run_raffle`: some enumeration of
the preferred keys followed by some shuffle of the non-preferred keys. -/
def ValidRaffleOrder (st : RaffleState) (ro : List UnitKey) : Prop :=
  ∃ p q, ro = p ++ q ∧ List.Perm p st.raffle_keys_prefer ∧
    List.Perm q (raffle_keys_not_preferred st)

/-- The selection while-loop of `run_raffle`: while keys remain and
`approvals_left > 0`, pop the first key, append all its member orders to
the admitted list and subtract the unit's ticket total from
`approvals_left`. -/
def selectLoop (m : List (UnitKey × List Order)) (subevent_id : Option Nat) :
    List UnitKey → Int → List Order
  | [], _ => []
  | k :: rest, left =>
    if left ≤ 0 then []
    else
      lookupTickets m k ++
        selectLoop m subevent_id rest
          (left - unitTickets subevent_id (lookupTickets m k))

/-- The `orders_to_approve` list of `run_raffle`, given the concrete
`raffle_order` produced by the preferred-set enumeration and the
shuffle. -/
def orders_to_approve (subevent_id : Option Nat) (orders : List Order)
    (raffle_order : List UnitKey) (raffle_size : Int) : List Order :=
  selectLoop (groupEligible subevent_id orders).raffle_tickets subevent_id
    raffle_order raffle_size

/-- Observable events of an executor run: a progress update
(`self.update_state`), an approval side-effect call (`approve_order`), a
failure audit-log entry
(`order.log_action('pretix_cliques.raffle.approve_failed', ...)`), or a
deny side-effect call (`deny_order`). -/
inductive ExecEvent
  | progress (value : ℚ)
  | approveCall (code : String)
  | approveFailLog (code : String) (detail : String)
  | denyCall (code : String)
deriving DecidableEq, Repr

/-- Python's `round(x, 2)`, modelled as exact rational rounding of the
value to the nearest hundredth. -/
def round2 (q : ℚ) : ℚ := (round (q * 100) : ℚ) / 100

/-- The progress percentage emitted at loop index `i` over `n` items:
`round(i / n * 100, 2)`. -/
def progressPct (i n : Nat) : ℚ := round2 ((i : ℚ) / (n : ℚ) * 100)

/-- Events of one iteration of the approval loop: the `approve_order`
call, the audit-log entry when that call raises `OrderError` (the oracle
`fail` gives the error detail of a failing call, `none` for success), and
the progress update emitted every 50 items. -/
def approveStep (fail : Order → Option String) (n i : Nat) (o : Order) :
    List ExecEvent :=
  ExecEvent.approveCall o.code ::
    ((match fail o with
      | some e => [ExecEvent.approveFailLog o.code e]
      | none => []) ++
     (if i % 50 == 0 then [ExecEvent.progress (progressPct i n)] else []))

/-- The approval loop of `run_raffle` over the admitted orders, from loop
index `i`. -/
def approveLoop (fail : Order → Option String) (n : Nat) :
    Nat → List Order → List ExecEvent
  | _, [] => []
  | i, o :: rest => approveStep fail n i o ++ approveLoop fail n (i + 1) rest

/-- The full event trace of the approval executor: the initial
`update_state` with value 0, then the per-item loop. -/
def approveExecTrace (fail : Order → Option String) (admitted : List Order) :
    List ExecEvent :=
  ExecEvent.progress 0 :: approveLoop fail admitted.length 0 admitted

/-- Result of `run_raffle`: the executor event trace over the admitted
orders, and the task's return value `len(orders_to_approve)`. -/
def run_raffle_result (fail : Order → Option String)
    (subevent_id : Option Nat) (orders : List Order)
    (raffle_order : List UnitKey) (raffle_size : Int) :
    List ExecEvent × Nat :=
  let adm := orders_to_approve subevent_id orders raffle_order raffle_size
  (approveExecTrace fail adm, adm.length)

/-- The eligibility filter of `run_rejection`: `pcnt_subevent >= 1`,
`require_approval=True`, `status=Order.STATUS_PENDING`.  Unlike
`run_raffle`, there is no `pcnt_othersub` condition. -/
def rejectionEligible (subevent_id : Option Nat) (o : Order) : Bool :=
  decide (1 ≤ pcnt_subevent subevent_id o) &&
  o.require_approval &&
  (o.status == OrderStatus.pending)

/-- The `orders` list denied by `run_rejection`. -/
def rejection_orders (subevent_id : Option Nat) (orders : List Order) :
    List Order :=
  orders.filter (rejectionEligible subevent_id)

/-- The deny loop of `run_rejection` over the orders, from loop index
`i`: the unconditional `deny_order` call and the progress update every 50
items. -/
def denyLoop (n : Nat) : Nat → List Order → List ExecEvent
  | _, [] => []
  | i, o :: rest =>
    ExecEvent.denyCall o.code ::
      ((if i % 50 == 0 then [ExecEvent.progress (progressPct i n)] else []) ++
       denyLoop n (i + 1) rest)

/-- Result of `run_rejection`: the executor event trace (initial
`update_state` with value 0, then the per-item loop) and the task's
return value `len(orders)`. -/
def run_rejection_result (subevent_id : Option Nat) (orders : List Order) :
    List ExecEvent × Nat :=
  let l := rejection_orders subevent_id orders
  (ExecEvent.progress 0 :: denyLoop l.length 0 l, l.length)

/-- All member orders stored in a ticket map, in entry order. -/
def mapMembers (m : List (UnitKey × List Order)) : List Order :=
  (m.map Prod.snd).flatten

/-- A ticket map is key-consistent when every stored order sits under its
own unit key; the grouping loop only ever files an order under
`unitKey o`. -/
def KeyConsistent (m : List (UnitKey × List Order)) : Prop :=
  ∀ kv ∈ m, ∀ o ∈ kv.2, kv.1 = unitKey o

/-- Total ticket count charged for the units of a key list. -/
def ticketsBefore (m : List (UnitKey × List Order)) (subevent_id : Option Nat)
    (ro : List UnitKey) (j : Nat) : Nat :=
  ((ro.take j).map fun k => unitTickets subevent_id (lookupTickets m k)).sum

/-- Number of units the selection while-loop pops before stopping. -/
def admitCount (m : List (UnitKey × List Order)) (subevent_id : Option Nat) :
    List UnitKey → Int → Nat
  | [], _ => 0
  | k :: rest, left =>
    if left ≤ 0 then 0
    else
      admitCount m subevent_id rest
        (left - unitTickets subevent_id (lookupTickets m k)) + 1

/-- The largest single-unit ticket total among a list of unit keys. -/
def maxUnitTickets (m : List (UnitKey × List Order))
    (subevent_id : Option Nat) (l : List UnitKey) : Nat :=
  (l.map fun k => unitTickets subevent_id (lookupTickets m k)).foldr max 0

/-- The codes of the `approve_order` calls appearing in a trace, in
order. -/
def approveCalls : List ExecEvent → List String
  | [] => []
  | ExecEvent.approveCall c :: rest => c :: approveCalls rest
  | ExecEvent.progress _ :: rest => approveCalls rest
  | ExecEvent.approveFailLog _ _ :: rest => approveCalls rest
  | ExecEvent.denyCall _ :: rest => approveCalls rest

/-- The codes of the `deny_order` calls appearing in a trace, in order. -/
def denyCalls : List ExecEvent → List String
  | [] => []
  | ExecEvent.denyCall c :: rest => c :: denyCalls rest
  | ExecEvent.progress _ :: rest => denyCalls rest
  | ExecEvent.approveFailLog _ _ :: rest => denyCalls rest
  | ExecEvent.approveCall _ :: rest => denyCalls rest

/-- The values of the progress updates appearing in a trace, in order. -/
def progressValues : List ExecEvent → List ℚ
  | [] => []
  | ExecEvent.progress v :: rest => v :: progressValues rest
  | ExecEvent.approveCall _ :: rest => progressValues rest
  | ExecEvent.approveFailLog _ _ :: rest => progressValues rest
  | ExecEvent.denyCall _ :: rest => progressValues rest

/-- Replace an order's grouping data (clique membership and raffle
override), leaving everything the rejection filter reads untouched. -/
def setGrouping (o : Order) (c : Option Nat) (m : Option String) : Order :=
  { o with clique_id := c, raffle_override := m }

/-- Sample order: a pending singleton with one admission ticket for
subevent 1 and an ALWAYS override. -/
def sampleAlways : Order :=
  ⟨"A", OrderStatus.pending, true, [⟨some 1, true, false⟩], none,
    some MODE_ALWAYS⟩

/-- Sample order: a pending singleton with admission tickets for
subevent 1 and subevent 2 and no grouping data. -/
def sampleSpan : Order :=
  ⟨"B", OrderStatus.pending, true,
    [⟨some 1, true, false⟩, ⟨some 2, true, false⟩], none, none⟩

/-- Sample order: a pending member of clique 7 with one admission ticket
for subevent 1 and a NEVER override. -/
def sampleNever : Order :=
  ⟨"C", OrderStatus.pending, true, [⟨some 1, true, false⟩], some 7,
    some MODE_NEVER⟩

/-- Sample order: a pending member of clique 7 with one admission ticket
for subevent 1 and an ALWAYS override. -/
def sampleCliqueAlways : Order :=
  ⟨"D", OrderStatus.pending, true, [⟨some 1, true, false⟩], some 7,
    some MODE_ALWAYS⟩

/-- Sample order: a pending singleton with one admission ticket for
subevent 1 and no override record. -/
def samplePlain : Order :=
  ⟨"P", OrderStatus.pending, true, [⟨some 1, true, false⟩], none, none⟩

/-! ## Basic characterizations of the two eligibility filters -/

theorem pcnt_subevent_pos_iff (sid : Option Nat) (o : Order) :
    1 ≤ pcnt_subevent sid o ↔
      ∃ p ∈ o.positions,
        p.admission = true ∧ p.canceled = false ∧ p.subevent = sid := by
  unfold pcnt_subevent
  rw [Nat.one_le_iff_ne_zero, Ne, List.length_eq_zero, List.filter_eq_nil_iff]
  push_neg
  constructor
  · rintro ⟨p, hp, hb⟩
    refine ⟨p, hp, ?_⟩
    simpa [Bool.and_eq_true, Bool.not_eq_true', and_assoc] using hb
  · rintro ⟨p, hp, h1, h2, h3⟩
    exact ⟨p, hp, by simp [h1, h2, h3]⟩

theorem pcnt_othersub_eq_zero_iff (sid : Option Nat) (o : Order) :
    pcnt_othersub sid o = 0 ↔
      ¬∃ p ∈ o.positions,
        p.admission = true ∧ p.canceled = false ∧ p.subevent ≠ sid := by
  unfold pcnt_othersub
  rw [List.length_eq_zero, List.filter_eq_nil_iff]
  constructor
  · rintro h ⟨p, hp, h1, h2, h3⟩
    exact h p hp (by simp [h1, h2, h3])
  · intro h p hp hb
    rw [Bool.and_eq_true, Bool.and_eq_true] at hb
    exact h ⟨p, hp, hb.1.1, by simpa using hb.1.2, by simpa using hb.2⟩

/-- C3: a reservation is selected by the eligibility filter of
`run_raffle` iff it requires approval, is pending, has at least one
non-canceled admission position targeting the given subevent and none
targeting any other subevent; its `pcnt_subevent` annotation counts the
matching positions. -/
theorem claim_C3 (subevent_id : Option Nat) (orders : List Order)
    (o : Order) :
    (o ∈ eligible_orders subevent_id orders ↔
      o ∈ orders ∧ o.require_approval = true ∧
        o.status = OrderStatus.pending ∧
        (∃ p ∈ o.positions,
          p.admission = true ∧ p.canceled = false ∧
            p.subevent = subevent_id) ∧
        ¬∃ p ∈ o.positions,
          p.admission = true ∧ p.canceled = false ∧
            p.subevent ≠ subevent_id) ∧
    pcnt_subevent subevent_id o =
      (o.positions.filter fun p =>
        decide (p.admission = true ∧ p.canceled = false ∧
          p.subevent = subevent_id)).length := by
  constructor
  · rw [eligible_orders, List.mem_filter, eligibleRaffle]
    simp only [Bool.and_eq_true, beq_iff_eq, decide_eq_true_eq]
    rw [pcnt_othersub_eq_zero_iff, pcnt_subevent_pos_iff]
    tauto
  · unfold pcnt_subevent
    congr 1
    apply List.filter_congr
    intro p _
    rw [Bool.eq_iff_iff]
    simp [Bool.and_eq_true, Bool.not_eq_true', and_assoc]

/-- C2 counterexample: an order with admission tickets both for the
target subevent and for another subevent is denied by `run_rejection`
although it is not eligible under the `run_raffle` filter of section
4.1. -/
theorem claim_C2_counterexample :
    rejection_orders (some 1) [sampleSpan] = [sampleSpan] ∧
    eligible_orders (some 1) [sampleSpan] = [] ∧
    rejection_orders (some 1) [sampleSpan] ≠
      eligible_orders (some 1) [sampleSpan] := by
  refine ⟨?_, ?_, ?_⟩ <;> decide

/-- C2 amended: `run_rejection` denies exactly the pending
approval-required orders with at least one non-canceled admission
position targeting the occurrence (the no-other-occurrence condition of
section 4.1 is not applied), and this set is insensitive to clique
membership and raffle overrides. -/
theorem claim_C2_amended (subevent_id : Option Nat) (orders : List Order) :
    (∀ o, o ∈ rejection_orders subevent_id orders ↔
      o ∈ orders ∧ o.require_approval = true ∧
        o.status = OrderStatus.pending ∧
        ∃ p ∈ o.positions,
          p.admission = true ∧ p.canceled = false ∧
            p.subevent = subevent_id) ∧
    (∀ g : Order → Option Nat, ∀ f : Order → Option String,
      rejection_orders subevent_id
          (orders.map fun o => setGrouping o (g o) (f o)) =
        (rejection_orders subevent_id orders).map
          fun o => setGrouping o (g o) (f o)) := by
  constructor
  · intro o
    rw [rejection_orders, List.mem_filter, rejectionEligible]
    simp only [Bool.and_eq_true, beq_iff_eq, decide_eq_true_eq]
    rw [pcnt_subevent_pos_iff]
    tauto
  · intro g f
    unfold rejection_orders
    rw [List.filter_map]
    refine congrArg _ (List.filter_congr ?_)
    intro o _
    rfl

/-- C9: an order with no override record (lookup-miss on
`raffle_override`) takes the NORMAL path in the grouping loop: it is
appended to its own unit, the preferred set and the removal set are
untouched, and no error is possible (the resolver is a total
function). -/
theorem claim_C9 (st : RaffleState) (o : Order)
    (h : o.raffle_override = none) :
    resolveStep st o =
      { st with raffle_tickets := appendAt st.raffle_tickets (unitKey o) o } := by
  rw [resolveStep]
  simp [h, MODE_NEVER, MODE_ALWAYS]

/-- C9 witness: the resolver applied to a concrete order without override
record. -/
theorem claim_C9_witness :
    resolveStep state0 samplePlain =
      { state0 with
        raffle_tickets := appendAt state0.raffle_tickets (unitKey samplePlain)
          samplePlain } :=
  claim_C9 state0 samplePlain rfl

theorem selectLoop_nil_map (sid : Option Nat) (ro : List UnitKey)
    (left : Int) : selectLoop [] sid ro left = [] := by
  induction ro generalizing left with
  | nil => rfl
  | cons k rest ih => simp [selectLoop, lookupTickets, ih]

/-- C10: with an empty eligible set the raffle admits nothing and returns
0, and with an empty rejection set the rejection denies nothing and
returns 0; in both runs the only emitted event is the initial progress
update, so the per-item percentage computation is never evaluated. -/
theorem claim_C10 (fail : Order → Option String) (subevent_id : Option Nat)
    (orders : List Order) (ro : List UnitKey) (raffle_size : Int)
    (h1 : eligible_orders subevent_id orders = [])
    (h2 : rejection_orders subevent_id orders = []) :
    run_raffle_result fail subevent_id orders ro raffle_size =
      ([ExecEvent.progress 0], 0) ∧
    run_rejection_result subevent_id orders = ([ExecEvent.progress 0], 0) := by
  have hg : groupEligible subevent_id orders = state0 := by
    rw [groupEligible, h1]; rfl
  constructor
  · have hadm : orders_to_approve subevent_id orders ro raffle_size = [] := by
      rw [orders_to_approve, hg]
      exact selectLoop_nil_map subevent_id ro raffle_size
    rw [run_raffle_result]
    simp [hadm, approveExecTrace, approveLoop]
  · rw [run_rejection_result]
    simp [h2, denyLoop]

/-- C10 witness: both runs on a concrete empty snapshot. -/
theorem claim_C10_witness :
    run_raffle_result (fun _ => none) (some 1) [] [] 5 =
      ([ExecEvent.progress 0], 0) ∧
    run_rejection_result (some 1) [] = ([ExecEvent.progress 0], 0) :=
  claim_C10 (fun _ => none) (some 1) [] [] 5 rfl rfl

/-! ## Characterization of the selection while-loop -/

theorem ticketsBefore_zero (m : List (UnitKey × List Order))
    (sid : Option Nat) (ro : List UnitKey) : ticketsBefore m sid ro 0 = 0 :=
  rfl

theorem ticketsBefore_cons_succ (m : List (UnitKey × List Order))
    (sid : Option Nat) (k : UnitKey) (rest : List UnitKey) (j : Nat) :
    ticketsBefore m sid (k :: rest) (j + 1) =
      unitTickets sid (lookupTickets m k) + ticketsBefore m sid rest j := by
  simp [ticketsBefore, List.take_succ_cons]

theorem ticketsBefore_mono (m : List (UnitKey × List Order))
    (sid : Option Nat) (ro : List UnitKey) {j j' : Nat} (h : j ≤ j') :
    ticketsBefore m sid ro j ≤ ticketsBefore m sid ro j' := by
  unfold ticketsBefore
  have h1 : ro.take j = (ro.take j').take j := by
    rw [List.take_take, Nat.min_eq_left h]
  conv_rhs => rw [← List.take_append_drop j (ro.take j')]
  rw [List.map_append, List.sum_append, ← h1]
  exact Nat.le_add_right _ _

theorem ticketsBefore_succ_of_lt (m : List (UnitKey × List Order))
    (sid : Option Nat) (ro : List UnitKey) {j : Nat} (hj : j < ro.length) :
    ticketsBefore m sid ro (j + 1) =
      ticketsBefore m sid ro j + unitTickets sid (lookupTickets m ro[j]) := by
  unfold ticketsBefore
  rw [List.take_succ, List.getElem?_eq_getElem hj, Option.toList_some,
    List.map_append, List.sum_append]
  simp

theorem selectLoop_eq_flatten (m : List (UnitKey × List Order))
    (sid : Option Nat) (ro : List UnitKey) (left : Int) :
    selectLoop m sid ro left =
      ((ro.take (admitCount m sid ro left)).map (lookupTickets m)).flatten := by
  induction ro generalizing left with
  | nil => rfl
  | cons k rest ih =>
    simp only [selectLoop, admitCount]
    by_cases h : left ≤ 0
    · simp [h]
    · simp [h, ih, List.take_succ_cons]

theorem admitCount_le_length (m : List (UnitKey × List Order))
    (sid : Option Nat) (ro : List UnitKey) (left : Int) :
    admitCount m sid ro left ≤ ro.length := by
  induction ro generalizing left with
  | nil => simp [admitCount]
  | cons k rest ih =>
    simp only [admitCount, List.length_cons]
    by_cases h : left ≤ 0
    · simp [h]
    · simpa [h] using Nat.succ_le_succ (ih _)

theorem ticketsBefore_lt_of_lt_admitCount (m : List (UnitKey × List Order))
    (sid : Option Nat) (ro : List UnitKey) (left : Int) {j : Nat}
    (h : j < admitCount m sid ro left) :
    (ticketsBefore m sid ro j : Int) < left := by
  induction ro generalizing left j with
  | nil => simp [admitCount] at h
  | cons k rest ih =>
    by_cases h0 : left ≤ 0
    · simp [admitCount, h0] at h
    · simp only [admitCount, if_neg h0] at h
      cases j with
      | zero =>
        rw [ticketsBefore_zero]
        push_cast
        omega
      | succ j' =>
        rw [ticketsBefore_cons_succ]
        have hj' : j' < admitCount m sid rest
            (left - unitTickets sid (lookupTickets m k)) := by omega
        have := ih (left - unitTickets sid (lookupTickets m k)) hj'
        push_cast at this ⊢
        omega

theorem le_ticketsBefore_admitCount (m : List (UnitKey × List Order))
    (sid : Option Nat) (ro : List UnitKey) (left : Int)
    (h : admitCount m sid ro left < ro.length) :
    left ≤ (ticketsBefore m sid ro (admitCount m sid ro left) : Int) := by
  induction ro generalizing left with
  | nil => simp at h
  | cons k rest ih =>
    by_cases h0 : left ≤ 0
    · simp only [admitCount, if_pos h0, ticketsBefore_zero]
      exact h0.trans (by norm_num)
    · simp only [admitCount, if_neg h0, List.length_cons] at h ⊢
      rw [ticketsBefore_cons_succ]
      have hh : admitCount m sid rest
          (left - unitTickets sid (lookupTickets m k)) < rest.length := by
        omega
      have := ih (left - unitTickets sid (lookupTickets m k)) hh
      push_cast at this ⊢
      omega

theorem selectLoop_of_nonpos (m : List (UnitKey × List Order))
    (sid : Option Nat) (ro : List UnitKey) {left : Int} (h : left ≤ 0) :
    selectLoop m sid ro left = [] := by
  cases ro with
  | nil => rfl
  | cons k rest => simp [selectLoop, h]

theorem lookup_subset_selectLoop (m : List (UnitKey × List Order))
    (sid : Option Nat) (ro : List UnitKey) (left : Int) (j : Nat)
    (hj : j < ro.length) (hlt : (ticketsBefore m sid ro j : Int) < left) :
    ∀ x ∈ lookupTickets m ro[j], x ∈ selectLoop m sid ro left := by
  induction ro generalizing left j with
  | nil => simp at hj
  | cons k rest ih =>
    intro x hx
    have hpos : ¬left ≤ 0 := by
      have hnn : (0 : Int) ≤ (ticketsBefore m sid (k :: rest) j : Int) :=
        Int.natCast_nonneg _
      omega
    simp only [selectLoop, if_neg hpos, List.mem_append]
    cases j with
    | zero =>
      left
      simpa using hx
    | succ j' =>
      right
      have hj' : j' < rest.length := by simpa using hj
      have hlt' : (ticketsBefore m sid rest j' : Int) <
          left - unitTickets sid (lookupTickets m k) := by
        rw [ticketsBefore_cons_succ] at hlt
        push_cast at hlt ⊢
        omega
      exact ih (left - unitTickets sid (lookupTickets m k)) j' hj' hlt' x
        (by simpa using hx)

theorem lookupTickets_eq_nil_or_mem (m : List (UnitKey × List Order))
    (k : UnitKey) :
    lookupTickets m k = [] ∨ lookupTickets m k ∈ m.map Prod.snd := by
  induction m with
  | nil => exact Or.inl rfl
  | cons kv rest ih =>
    obtain ⟨k', v⟩ := kv
    by_cases h : k' = k
    · right
      simp [lookupTickets, h]
    · rcases ih with h' | h'
      · left
        simpa [lookupTickets, h] using h'
      · right
        simp only [lookupTickets, if_neg h, List.map_cons, List.mem_cons]
        exact Or.inr h'

theorem mem_mapMembers_of_mem_lookup (m : List (UnitKey × List Order))
    (k : UnitKey) (x : Order) (hx : x ∈ lookupTickets m k) :
    x ∈ mapMembers m := by
  rcases lookupTickets_eq_nil_or_mem m k with h | h
  · rw [h] at hx
    simp at hx
  · exact List.mem_flatten.mpr ⟨_, h, hx⟩

theorem selectLoop_subset_mapMembers (m : List (UnitKey × List Order))
    (sid : Option Nat) (ro : List UnitKey) (left : Int) :
    ∀ x ∈ selectLoop m sid ro left, x ∈ mapMembers m := by
  induction ro generalizing left with
  | nil =>
    intro x hx
    simp [selectLoop] at hx
  | cons k rest ih =>
    intro x hx
    by_cases h : left ≤ 0
    · rw [selectLoop_of_nonpos m sid _ h] at hx
      simp at hx
    · simp only [selectLoop, if_neg h, List.mem_append] at hx
      rcases hx with hx | hx
      · exact mem_mapMembers_of_mem_lookup m k x hx
      · exact ih _ x hx

theorem unitTickets_append (sid : Option Nat) (a b : List Order) :
    unitTickets sid (a ++ b) = unitTickets sid a + unitTickets sid b := by
  simp [unitTickets]

theorem unitTickets_flatten (sid : Option Nat) (L : List (List Order)) :
    unitTickets sid L.flatten = (L.map (unitTickets sid)).sum := by
  induction L with
  | nil => rfl
  | cons l rest ih =>
    rw [List.flatten_cons, unitTickets_append, ih, List.map_cons,
      List.sum_cons]

theorem le_foldr_max {x : Nat} {l : List Nat} (h : x ∈ l) :
    x ≤ l.foldr max 0 := by
  induction l with
  | nil => simp at h
  | cons a rest ih =>
    rcases List.mem_cons.mp h with rfl | h'
    · exact le_max_left _ _
    · exact le_trans (ih h') (le_max_right _ _)

/-- C4: the selection loop admits a prefix of whole units: there is a cut
point `J` such that the admitted list is exactly the concatenation of the
first `J` units, every admitted unit was popped while the remaining quota
(`raffle_size` minus the tickets charged so far) was still positive, the
loop admits nothing further once the remainder is non-positive, and the
admitted ticket total exceeds `raffle_size` by less than the largest
admitted unit's ticket total. -/
theorem claim_C4 (m : List (UnitKey × List Order)) (sid : Option Nat)
    (ro : List UnitKey) (raffle_size : Int) :
    ∃ J, J ≤ ro.length ∧
      selectLoop m sid ro raffle_size =
        ((ro.take J).map (lookupTickets m)).flatten ∧
      (∀ j < J, (ticketsBefore m sid ro j : Int) < raffle_size) ∧
      (J < ro.length → raffle_size ≤ (ticketsBefore m sid ro J : Int)) ∧
      (selectLoop m sid ro raffle_size ≠ [] →
        (unitTickets sid (selectLoop m sid ro raffle_size) : Int) ≤
          raffle_size + (maxUnitTickets m sid (ro.take J) : Int)) := by
  refine ⟨admitCount m sid ro raffle_size, admitCount_le_length m sid ro _,
    selectLoop_eq_flatten m sid ro _,
    fun j hj => ticketsBefore_lt_of_lt_admitCount m sid ro _ hj,
    le_ticketsBefore_admitCount m sid ro _, ?_⟩
  intro hne
  have htot : unitTickets sid (selectLoop m sid ro raffle_size) =
      ticketsBefore m sid ro (admitCount m sid ro raffle_size) := by
    rw [selectLoop_eq_flatten, unitTickets_flatten, List.map_map, ticketsBefore]
    rfl
  have hJpos : 1 ≤ admitCount m sid ro raffle_size := by
    by_contra hc
    have h0 : admitCount m sid ro raffle_size = 0 := by omega
    rw [selectLoop_eq_flatten, h0] at hne
    simp at hne
  obtain ⟨J', hJ'⟩ : ∃ J', admitCount m sid ro raffle_size = J' + 1 :=
    ⟨admitCount m sid ro raffle_size - 1, by omega⟩
  have hlen : J' < ro.length := by
    have := admitCount_le_length m sid ro raffle_size
    omega
  have hmem : ro[J'] ∈ ro.take (J' + 1) := by
    have htk : ro.take (J' + 1) = ro.take J' ++ [ro[J']] := by
      rw [List.take_succ, List.getElem?_eq_getElem hlen, Option.toList_some]
    rw [htk]
    exact List.mem_append_right _ (List.mem_singleton_self _)
  have hlast : unitTickets sid (lookupTickets m ro[J']) ≤
      maxUnitTickets m sid (ro.take (admitCount m sid ro raffle_size)) := by
    apply le_foldr_max
    rw [List.mem_map]
    exact ⟨ro[J'], by rw [hJ']; exact hmem, rfl⟩
  have hbefore : (ticketsBefore m sid ro J' : Int) < raffle_size :=
    ticketsBefore_lt_of_lt_admitCount m sid ro _ (by omega)
  have hsplit : ticketsBefore m sid ro (J' + 1) =
      ticketsBefore m sid ro J' + unitTickets sid (lookupTickets m ro[J']) :=
    ticketsBefore_succ_of_lt m sid ro hlen
  rw [htot, hJ', hsplit]
  rw [hJ'] at hlast
  push_cast at hbefore hlast ⊢
  omega

/-! ## Invariants of the grouping and override loop -/

theorem mem_insertNew {α : Type} [DecidableEq α] (l : List α) (a x : α) :
    x ∈ insertNew l a ↔ x ∈ l ∨ x = a := by
  unfold insertNew
  by_cases h : a ∈ l
  · rw [if_pos h]
    constructor
    · exact Or.inl
    · rintro (hx | rfl)
      · exact hx
      · exact h
  · rw [if_neg h]
    simp

theorem nodup_insertNew {α : Type} [DecidableEq α] {l : List α}
    (h : l.Nodup) (a : α) : (insertNew l a).Nodup := by
  unfold insertNew
  by_cases ha : a ∈ l
  · simpa [ha] using h
  · rw [if_neg ha, List.nodup_append]
    refine ⟨h, List.nodup_singleton a, ?_⟩
    intro x hx hxa
    rw [List.mem_singleton] at hxa
    exact ha (hxa ▸ hx)

theorem mapMembers_cons (kv : UnitKey × List Order)
    (rest : List (UnitKey × List Order)) :
    mapMembers (kv :: rest) = kv.2 ++ mapMembers rest := by
  simp [mapMembers]

theorem mapMembers_appendAt (m : List (UnitKey × List Order)) (k : UnitKey)
    (o : Order) :
    List.Perm (mapMembers (appendAt m k o)) (o :: mapMembers m) := by
  induction m with
  | nil => simp [appendAt, mapMembers]
  | cons kv rest ih =>
    obtain ⟨k', v⟩ := kv
    by_cases h : k' = k
    · simp only [appendAt, if_pos h, mapMembers_cons]
      exact (List.perm_append_singleton o v).append_right _
    · simp only [appendAt, if_neg h, mapMembers_cons]
      exact (ih.append_left v).trans List.perm_middle

theorem keys_appendAt (m : List (UnitKey × List Order)) (k : UnitKey)
    (o : Order) (x : UnitKey) :
    x ∈ (appendAt m k o).map Prod.fst ↔ x ∈ m.map Prod.fst ∨ x = k := by
  induction m with
  | nil => simp [appendAt]
  | cons kv rest ih =>
    obtain ⟨k', v⟩ := kv
    by_cases h : k' = k
    · simp only [appendAt, if_pos h, List.map_cons, List.mem_cons]
      subst h
      tauto
    · simp only [appendAt, if_neg h, List.map_cons, List.mem_cons, ih]
      tauto

theorem nodup_keys_appendAt (m : List (UnitKey × List Order)) (k : UnitKey)
    (o : Order) (h : (m.map Prod.fst).Nodup) :
    ((appendAt m k o).map Prod.fst).Nodup := by
  induction m with
  | nil => simp [appendAt]
  | cons kv rest ih =>
    obtain ⟨k', v⟩ := kv
    rw [List.map_cons, List.nodup_cons] at h
    by_cases hk : k' = k
    · simp only [appendAt, if_pos hk, List.map_cons, List.nodup_cons]
      exact h
    · simp only [appendAt, if_neg hk, List.map_cons, List.nodup_cons]
      refine ⟨?_, ih h.2⟩
      rw [keys_appendAt]
      rintro (hx | rfl)
      · exact h.1 hx
      · exact hk rfl

theorem keyConsistent_appendAt (m : List (UnitKey × List Order)) (o : Order)
    (h : KeyConsistent m) : KeyConsistent (appendAt m (unitKey o) o) := by
  induction m with
  | nil =>
    intro kv hkv x hx
    simp only [appendAt, List.mem_singleton] at hkv
    subst hkv
    simp only [List.mem_singleton] at hx
    subst hx
    rfl
  | cons kv' rest ih =>
    obtain ⟨k', v⟩ := kv'
    have htail : KeyConsistent rest := fun kv h' =>
      h kv (List.mem_cons_of_mem _ h')
    by_cases hk : k' = unitKey o
    · intro kv hkv x hx
      simp only [appendAt, if_pos hk] at hkv
      rcases List.mem_cons.mp hkv with rfl | hkv'
      · rcases List.mem_append.mp hx with hxv | hxo
        · exact h (k', v) (List.mem_cons_self _ _) x hxv
        · rw [List.mem_singleton] at hxo
          subst hxo
          exact hk
      · exact htail kv hkv' x hx
    · intro kv hkv x hx
      simp only [appendAt, if_neg hk] at hkv
      rcases List.mem_cons.mp hkv with rfl | hkv'
      · exact h (k', v) (List.mem_cons_self _ _) x hx
      · exact ih htail kv hkv' x hx

theorem resolveStep_never_clique (st : RaffleState) (o : Order) (cid : Nat)
    (h : o.raffle_override = some MODE_NEVER) (hc : o.clique_id = some cid) :
    resolveStep st o =
      { st with clique_ids_remove := insertNew st.clique_ids_remove cid } := by
  rw [resolveStep, if_pos h, hc]

theorem resolveStep_never_single (st : RaffleState) (o : Order)
    (h : o.raffle_override = some MODE_NEVER) (hc : o.clique_id = none) :
    resolveStep st o = st := by
  rw [resolveStep, if_pos h, hc]

theorem resolveStep_not_never (st : RaffleState) (o : Order)
    (h : ¬o.raffle_override = some MODE_NEVER) :
    resolveStep st o =
      { st with
        raffle_tickets := appendAt st.raffle_tickets (unitKey o) o
        raffle_keys_prefer :=
          if o.raffle_override = some MODE_ALWAYS then
            insertNew st.raffle_keys_prefer (unitKey o)
          else st.raffle_keys_prefer } := by
  rw [resolveStep, if_neg h]

theorem keyConsistent_resolveStep (st : RaffleState) (o : Order)
    (h : KeyConsistent st.raffle_tickets) :
    KeyConsistent (resolveStep st o).raffle_tickets := by
  by_cases hn : o.raffle_override = some MODE_NEVER
  · cases hc : o.clique_id with
    | none => rw [resolveStep_never_single st o hn hc]; exact h
    | some cid => rw [resolveStep_never_clique st o cid hn hc]; exact h
  · rw [resolveStep_not_never st o hn]
    exact keyConsistent_appendAt _ o h

theorem keyConsistent_resolveOrders (st : RaffleState) (l : List Order)
    (h : KeyConsistent st.raffle_tickets) :
    KeyConsistent (resolveOrders st l).raffle_tickets := by
  induction l generalizing st with
  | nil => exact h
  | cons o rest ih => exact ih _ (keyConsistent_resolveStep st o h)

theorem nodup_keys_resolveStep (st : RaffleState) (o : Order)
    (h : (st.raffle_tickets.map Prod.fst).Nodup) :
    ((resolveStep st o).raffle_tickets.map Prod.fst).Nodup := by
  by_cases hn : o.raffle_override = some MODE_NEVER
  · cases hc : o.clique_id with
    | none => rw [resolveStep_never_single st o hn hc]; exact h
    | some cid => rw [resolveStep_never_clique st o cid hn hc]; exact h
  · rw [resolveStep_not_never st o hn]
    exact nodup_keys_appendAt _ _ o h

theorem nodup_keys_resolveOrders (st : RaffleState) (l : List Order)
    (h : (st.raffle_tickets.map Prod.fst).Nodup) :
    ((resolveOrders st l).raffle_tickets.map Prod.fst).Nodup := by
  induction l generalizing st with
  | nil => exact h
  | cons o rest ih => exact ih _ (nodup_keys_resolveStep st o h)

theorem nodup_prefer_resolveStep (st : RaffleState) (o : Order)
    (h : st.raffle_keys_prefer.Nodup) :
    (resolveStep st o).raffle_keys_prefer.Nodup := by
  by_cases hn : o.raffle_override = some MODE_NEVER
  · cases hc : o.clique_id with
    | none => rw [resolveStep_never_single st o hn hc]; exact h
    | some cid => rw [resolveStep_never_clique st o cid hn hc]; exact h
  · rw [resolveStep_not_never st o hn]
    by_cases ha : o.raffle_override = some MODE_ALWAYS
    · simpa [ha] using nodup_insertNew h (unitKey o)
    · simpa [ha] using h

theorem nodup_prefer_resolveOrders (st : RaffleState) (l : List Order)
    (h : st.raffle_keys_prefer.Nodup) :
    (resolveOrders st l).raffle_keys_prefer.Nodup := by
  induction l generalizing st with
  | nil => exact h
  | cons o rest ih => exact ih _ (nodup_prefer_resolveStep st o h)

theorem notNeverBool_eq_true (o : Order) :
    (o.raffle_override != some MODE_NEVER) = true ↔
      ¬o.raffle_override = some MODE_NEVER := by
  simp

theorem mapMembers_resolveOrders (st : RaffleState) (l : List Order) :
    List.Perm (mapMembers (resolveOrders st l).raffle_tickets)
      (mapMembers st.raffle_tickets ++
        l.filter fun o => o.raffle_override != some MODE_NEVER) := by
  induction l generalizing st with
  | nil => simp [resolveOrders]
  | cons o rest ih =>
    show List.Perm (mapMembers (resolveOrders (resolveStep st o) rest).raffle_tickets) _
    by_cases hn : o.raffle_override = some MODE_NEVER
    · have hf : ((o :: rest).filter fun x => x.raffle_override != some MODE_NEVER) =
          rest.filter fun x => x.raffle_override != some MODE_NEVER := by
        rw [List.filter_cons_of_neg]
        simp [hn]
      rw [hf]
      have hst : (resolveStep st o).raffle_tickets = st.raffle_tickets := by
        cases hc : o.clique_id with
        | none => rw [resolveStep_never_single st o hn hc]
        | some cid => rw [resolveStep_never_clique st o cid hn hc]
      have := ih (resolveStep st o)
      rwa [hst] at this
    · have hf : ((o :: rest).filter fun x => x.raffle_override != some MODE_NEVER) =
          o :: rest.filter fun x => x.raffle_override != some MODE_NEVER := by
        rw [List.filter_cons_of_pos]
        simp [hn]
      rw [hf]
      have hst : (resolveStep st o).raffle_tickets =
          appendAt st.raffle_tickets (unitKey o) o := by
        rw [resolveStep_not_never st o hn]
      refine (ih (resolveStep st o)).trans ?_
      rw [hst]
      refine ((mapMembers_appendAt st.raffle_tickets (unitKey o) o).append_right _).trans ?_
      exact List.perm_middle.symm

theorem mem_remove_resolveOrders (st : RaffleState) (l : List Order)
    (cid : Nat) :
    cid ∈ (resolveOrders st l).clique_ids_remove ↔
      cid ∈ st.clique_ids_remove ∨
        ∃ o ∈ l, o.raffle_override = some MODE_NEVER ∧
          o.clique_id = some cid := by
  induction l generalizing st with
  | nil => simp [resolveOrders]
  | cons o rest ih =>
    show cid ∈ (resolveOrders (resolveStep st o) rest).clique_ids_remove ↔ _
    rw [ih]
    simp only [List.mem_cons, exists_eq_or_imp]
    by_cases hn : o.raffle_override = some MODE_NEVER
    · cases hc : o.clique_id with
      | none =>
        rw [resolveStep_never_single st o hn hc]
        simp [hn, hc]
      | some cid' =>
        rw [resolveStep_never_clique st o cid' hn hc]
        show cid ∈ insertNew st.clique_ids_remove cid' ∨ _ ↔ _
        rw [mem_insertNew]
        simp only [hn, hc, Option.some_inj, true_and]
        tauto
    · have hst : (resolveStep st o).clique_ids_remove = st.clique_ids_remove := by
        rw [resolveStep_not_never st o hn]
      rw [hst]
      simp [hn]

theorem mem_prefer_resolveOrders (st : RaffleState) (l : List Order)
    (k : UnitKey) :
    k ∈ (resolveOrders st l).raffle_keys_prefer ↔
      k ∈ st.raffle_keys_prefer ∨
        ∃ o ∈ l, o.raffle_override = some MODE_ALWAYS ∧ unitKey o = k := by
  induction l generalizing st with
  | nil => simp [resolveOrders]
  | cons o rest ih =>
    show k ∈ (resolveOrders (resolveStep st o) rest).raffle_keys_prefer ↔ _
    rw [ih]
    simp only [List.mem_cons, exists_eq_or_imp]
    by_cases hn : o.raffle_override = some MODE_NEVER
    · have ha : ¬o.raffle_override = some MODE_ALWAYS := by
        rw [hn]
        decide
      have hst : (resolveStep st o).raffle_keys_prefer = st.raffle_keys_prefer := by
        cases hc : o.clique_id with
        | none => rw [resolveStep_never_single st o hn hc]
        | some cid => rw [resolveStep_never_clique st o cid hn hc]
      rw [hst]
      simp [ha]
    · rw [resolveStep_not_never st o hn]
      by_cases ha : o.raffle_override = some MODE_ALWAYS
      · dsimp only
        rw [if_pos ha, mem_insertNew]
        simp only [ha, true_and]
        constructor
        · rintro ((hk | rfl) | hk)
          · exact Or.inl hk
          · exact Or.inr (Or.inl rfl)
          · exact Or.inr (Or.inr hk)
        · rintro (hk | (rfl | hk))
          · exact Or.inl (Or.inl hk)
          · exact Or.inl (Or.inr rfl)
          · exact Or.inr hk
      · dsimp only
        rw [if_neg ha]
        simp [ha]

theorem mem_keys_resolveOrders (st : RaffleState) (l : List Order)
    (k : UnitKey) :
    k ∈ (resolveOrders st l).raffle_tickets.map Prod.fst ↔
      k ∈ st.raffle_tickets.map Prod.fst ∨
        ∃ o ∈ l, ¬o.raffle_override = some MODE_NEVER ∧ unitKey o = k := by
  induction l generalizing st with
  | nil => simp [resolveOrders]
  | cons o rest ih =>
    show k ∈ (resolveOrders (resolveStep st o) rest).raffle_tickets.map Prod.fst ↔ _
    rw [ih]
    simp only [List.mem_cons, exists_eq_or_imp]
    by_cases hn : o.raffle_override = some MODE_NEVER
    · have hst : (resolveStep st o).raffle_tickets = st.raffle_tickets := by
        cases hc : o.clique_id with
        | none => rw [resolveStep_never_single st o hn hc]
        | some cid => rw [resolveStep_never_clique st o cid hn hc]
      rw [hst]
      simp [hn]
    · have hst : (resolveStep st o).raffle_tickets =
          appendAt st.raffle_tickets (unitKey o) o := by
        rw [resolveStep_not_never st o hn]
      rw [hst]
      show k ∈ (appendAt st.raffle_tickets (unitKey o) o).map Prod.fst ∨ _ ↔ _
      rw [keys_appendAt]
      simp only [hn, not_false_iff, true_and]
      constructor
      · rintro ((hk | rfl) | hk)
        · exact Or.inl hk
        · exact Or.inr (Or.inl rfl)
        · exact Or.inr (Or.inr hk)
      · rintro (hk | (rfl | hk))
        · exact Or.inl (Or.inl hk)
        · exact Or.inl (Or.inr rfl)
        · exact Or.inr hk

/-! ## The NEVER-removal pass -/

theorem keyRemoved_clique (rm : List Nat) (cid : Nat) :
    keyRemoved rm (UnitKey.clique cid) = true ↔ cid ∈ rm := by
  simp [keyRemoved]

theorem mapMembers_filter_keys (m : List (UnitKey × List Order))
    (rm : List Nat) (h : KeyConsistent m) :
    mapMembers (m.filter fun kv => !keyRemoved rm kv.1) =
      (mapMembers m).filter fun o => !keyRemoved rm (unitKey o) := by
  induction m with
  | nil => rfl
  | cons kv rest ih =>
    obtain ⟨k, v⟩ := kv
    have hv : ∀ o ∈ v, k = unitKey o := h (k, v) (List.mem_cons_self _ _)
    have htail : KeyConsistent rest := fun kv h' =>
      h kv (List.mem_cons_of_mem _ h')
    rw [mapMembers_cons, List.filter_append]
    by_cases hr : keyRemoved rm k
    · have hv0 : (v.filter fun o => !keyRemoved rm (unitKey o)) = [] := by
        apply List.filter_eq_nil_iff.mpr
        intro o ho
        rw [← hv o ho]
        simp [hr]
      rw [List.filter_cons_of_neg (by simp [hr]), hv0, List.nil_append, ih htail]
    · have hv1 : (v.filter fun o => !keyRemoved rm (unitKey o)) = v := by
        apply List.filter_eq_self.mpr
        intro o ho
        rw [← hv o ho]
        simp [hr]
      rw [List.filter_cons_of_pos (by simp [hr]), mapMembers_cons, ih htail, hv1]

theorem keys_filter_keys (m : List (UnitKey × List Order)) (rm : List Nat) :
    (m.filter fun kv => !keyRemoved rm kv.1).map Prod.fst =
      (m.map Prod.fst).filter fun k => !keyRemoved rm k := by
  induction m with
  | nil => rfl
  | cons kv rest ih =>
    obtain ⟨k, v⟩ := kv
    by_cases hr : keyRemoved rm k
    · rw [List.filter_cons_of_neg (by simp [hr]), List.map_cons,
        List.filter_cons_of_neg (by simp [hr]), ih]
    · rw [List.filter_cons_of_pos (by simp [hr]), List.map_cons,
        List.map_cons, List.filter_cons_of_pos (by simp [hr]), ih]

theorem keyConsistent_filter_keys (m : List (UnitKey × List Order))
    (rm : List Nat) (h : KeyConsistent m) :
    KeyConsistent (m.filter fun kv => !keyRemoved rm kv.1) :=
  fun kv hkv => h kv (List.mem_of_mem_filter hkv)

theorem mem_mapMembers_iff (m : List (UnitKey × List Order)) (x : Order) :
    x ∈ mapMembers m ↔ ∃ kv ∈ m, x ∈ kv.2 := by
  unfold mapMembers
  rw [List.mem_flatten]
  constructor
  · rintro ⟨v, hv, hx⟩
    rw [List.mem_map] at hv
    obtain ⟨kv, hkv, rfl⟩ := hv
    exact ⟨kv, hkv, hx⟩
  · rintro ⟨kv, hkv, hx⟩
    exact ⟨kv.2, List.mem_map_of_mem _ hkv, hx⟩

theorem unitKey_of_mem_lookup (m : List (UnitKey × List Order))
    (h : KeyConsistent m) (k : UnitKey) (x : Order)
    (hx : x ∈ lookupTickets m k) : unitKey x = k := by
  induction m with
  | nil => simp [lookupTickets] at hx
  | cons kv rest ih =>
    obtain ⟨k', v⟩ := kv
    have htail : KeyConsistent rest := fun kv h' =>
      h kv (List.mem_cons_of_mem _ h')
    by_cases hk : k' = k
    · rw [lookupTickets, if_pos hk] at hx
      rw [← h (k', v) (List.mem_cons_self _ _) x hx, hk]
    · rw [lookupTickets, if_neg hk] at hx
      exact ih htail hx

theorem keyConsistent_state0 : KeyConsistent state0.raffle_tickets :=
  fun kv hkv => absurd hkv (List.not_mem_nil kv)

theorem groupEligible_tickets (subevent_id : Option Nat)
    (orders : List Order) :
    (groupEligible subevent_id orders).raffle_tickets =
      (resolveOrders state0 (eligible_orders subevent_id orders)).raffle_tickets.filter
        fun kv =>
          !keyRemoved
            (resolveOrders state0
              (eligible_orders subevent_id orders)).clique_ids_remove kv.1 :=
  rfl

theorem groupEligible_prefer (subevent_id : Option Nat)
    (orders : List Order) :
    (groupEligible subevent_id orders).raffle_keys_prefer =
      (resolveOrders state0 (eligible_orders subevent_id orders)).raffle_keys_prefer.filter
        fun k =>
          !keyRemoved
            (resolveOrders state0
              (eligible_orders subevent_id orders)).clique_ids_remove k :=
  rfl

theorem groupEligible_remove (subevent_id : Option Nat)
    (orders : List Order) :
    (groupEligible subevent_id orders).clique_ids_remove =
      (resolveOrders state0
        (eligible_orders subevent_id orders)).clique_ids_remove :=
  rfl

theorem keyConsistent_groupEligible (subevent_id : Option Nat)
    (orders : List Order) :
    KeyConsistent (groupEligible subevent_id orders).raffle_tickets := by
  rw [groupEligible_tickets]
  exact keyConsistent_filter_keys _ _
    (keyConsistent_resolveOrders state0 _ keyConsistent_state0)

/-- C5: a NEVER override on one clique member voids the whole clique:
no order of that clique appears in any unit of the ticket map, the
clique's key is not preferred, and no such order is admitted — regardless
of the other members' own overrides; and any eligible order that itself
carries a NEVER override (in particular a NEVER singleton) is never
admitted either. -/
theorem claim_C5 (subevent_id : Option Nat) (orders : List Order)
    (ro : List UnitKey) (raffle_size : Int) (cid : Nat) (onever : Order)
    (h1 : onever ∈ eligible_orders subevent_id orders)
    (h2 : onever.raffle_override = some MODE_NEVER)
    (h3 : onever.clique_id = some cid)
    (o : Order) (ho : o.clique_id = some cid) :
    (∀ kv ∈ (groupEligible subevent_id orders).raffle_tickets, o ∉ kv.2) ∧
    UnitKey.clique cid ∉
      (groupEligible subevent_id orders).raffle_keys_prefer ∧
    o ∉ orders_to_approve subevent_id orders ro raffle_size ∧
    (∀ s, s ∈ eligible_orders subevent_id orders →
      s.raffle_override = some MODE_NEVER →
      s ∉ orders_to_approve subevent_id orders ro raffle_size) := by
  have hKCpre : KeyConsistent
      (resolveOrders state0 (eligible_orders subevent_id orders)).raffle_tickets :=
    keyConsistent_resolveOrders state0 _ keyConsistent_state0
  have hcid : cid ∈
      (resolveOrders state0
        (eligible_orders subevent_id orders)).clique_ids_remove :=
    (mem_remove_resolveOrders state0 _ cid).mpr
      (Or.inr ⟨onever, h1, h2, h3⟩)
  have hko : unitKey o = UnitKey.clique cid := by
    rw [unitKey, ho]
  have hmem : ∀ kv ∈ (groupEligible subevent_id orders).raffle_tickets,
      o ∉ kv.2 := by
    intro kv hkv hx
    rw [groupEligible_tickets, List.mem_filter] at hkv
    have hkey : kv.1 = unitKey o := hKCpre kv hkv.1 o hx
    rw [hkey, hko] at hkv
    have : keyRemoved
        (resolveOrders state0
          (eligible_orders subevent_id orders)).clique_ids_remove
        (UnitKey.clique cid) = true := (keyRemoved_clique _ cid).mpr hcid
    rw [this] at hkv
    exact absurd hkv.2 (by simp)
  refine ⟨hmem, ?_, ?_, ?_⟩
  · intro hp
    rw [groupEligible_prefer, List.mem_filter] at hp
    have : keyRemoved
        (resolveOrders state0
          (eligible_orders subevent_id orders)).clique_ids_remove
        (UnitKey.clique cid) = true := (keyRemoved_clique _ cid).mpr hcid
    rw [this] at hp
    exact absurd hp.2 (by simp)
  · intro hadm
    have hm : o ∈ mapMembers (groupEligible subevent_id orders).raffle_tickets :=
      selectLoop_subset_mapMembers _ _ _ _ o hadm
    obtain ⟨kv, hkv, hx⟩ := (mem_mapMembers_iff _ o).mp hm
    exact hmem kv hkv hx
  · intro s hs hnever hadm
    have hm : s ∈ mapMembers (groupEligible subevent_id orders).raffle_tickets :=
      selectLoop_subset_mapMembers _ _ _ _ s hadm
    rw [groupEligible_tickets,
      mapMembers_filter_keys _ _ hKCpre] at hm
    have hm2 : s ∈ mapMembers
        (resolveOrders state0 (eligible_orders subevent_id orders)).raffle_tickets :=
      List.mem_of_mem_filter hm
    have hperm := mapMembers_resolveOrders state0
      (eligible_orders subevent_id orders)
    rw [hperm.mem_iff] at hm2
    have : s ∈ (eligible_orders subevent_id orders).filter
        fun x => x.raffle_override != some MODE_NEVER := by
      simpa [mapMembers, state0] using hm2
    have := List.of_mem_filter this
    rw [hnever] at this
    simp at this

/-- C5 witness: clique 7 contains a NEVER member, so its ALWAYS member is
excluded from the map, the preferred set and the admitted list, and the
NEVER member itself is never admitted. -/
theorem claim_C5_witness :
    (∀ kv ∈ (groupEligible (some 1) [sampleNever, sampleCliqueAlways]).raffle_tickets,
      sampleCliqueAlways ∉ kv.2) ∧
    UnitKey.clique 7 ∉
      (groupEligible (some 1) [sampleNever, sampleCliqueAlways]).raffle_keys_prefer ∧
    sampleCliqueAlways ∉
      orders_to_approve (some 1) [sampleNever, sampleCliqueAlways]
        [UnitKey.clique 7] 5 ∧
    (∀ s, s ∈ eligible_orders (some 1) [sampleNever, sampleCliqueAlways] →
      s.raffle_override = some MODE_NEVER →
      s ∉ orders_to_approve (some 1) [sampleNever, sampleCliqueAlways]
        [UnitKey.clique 7] 5) :=
  claim_C5 (some 1) [sampleNever, sampleCliqueAlways] [UnitKey.clique 7] 5 7
    sampleNever (by decide) rfl rfl sampleCliqueAlways rfl

theorem mapMembers_groupEligible_perm (subevent_id : Option Nat)
    (orders : List Order) :
    List.Perm (mapMembers (groupEligible subevent_id orders).raffle_tickets)
      ((eligible_orders subevent_id orders).filter fun o =>
        o.raffle_override != some MODE_NEVER &&
        !keyRemoved (groupEligible subevent_id orders).clique_ids_remove
          (unitKey o)) := by
  have hKCpre : KeyConsistent
      (resolveOrders state0 (eligible_orders subevent_id orders)).raffle_tickets :=
    keyConsistent_resolveOrders state0 _ keyConsistent_state0
  have hmapeq : mapMembers (groupEligible subevent_id orders).raffle_tickets =
      (mapMembers (resolveOrders state0
        (eligible_orders subevent_id orders)).raffle_tickets).filter
        fun o =>
          !keyRemoved (resolveOrders state0
            (eligible_orders subevent_id orders)).clique_ids_remove
            (unitKey o) := by
    rw [groupEligible_tickets, mapMembers_filter_keys _ _ hKCpre]
  have hpre' : List.Perm
      (mapMembers (resolveOrders state0
        (eligible_orders subevent_id orders)).raffle_tickets)
      ((eligible_orders subevent_id orders).filter fun o =>
        o.raffle_override != some MODE_NEVER) := by
    simpa [mapMembers, state0] using
      mapMembers_resolveOrders state0 (eligible_orders subevent_id orders)
  rw [groupEligible_remove, hmapeq]
  refine (hpre'.filter _).trans ?_
  rw [List.filter_filter]
  have heq : ((eligible_orders subevent_id orders).filter fun a =>
        (!keyRemoved (resolveOrders state0
          (eligible_orders subevent_id orders)).clique_ids_remove
          (unitKey a)) &&
        (a.raffle_override != some MODE_NEVER)) =
      (eligible_orders subevent_id orders).filter fun a =>
        (a.raffle_override != some MODE_NEVER) &&
        !keyRemoved (resolveOrders state0
          (eligible_orders subevent_id orders)).clique_ids_remove
          (unitKey a) :=
    List.filter_congr fun a _ => Bool.and_comm _ _
  rw [heq]

/-- C8: grouping partitions the surviving eligible orders: every stored
order sits under exactly its own unit key, the unit keys are pairwise
distinct, the concatenation of all unit member lists is a permutation of
the eligible orders minus the NEVER orders and the members of
NEVER-removed cliques, and consequently the admitted list contains no
order twice. -/
theorem claim_C8 (subevent_id : Option Nat) (orders : List Order)
    (ro : List UnitKey) (raffle_size : Int)
    (hnd : (eligible_orders subevent_id orders).Nodup)
    (hro : ValidRaffleOrder (groupEligible subevent_id orders) ro) :
    KeyConsistent (groupEligible subevent_id orders).raffle_tickets ∧
    ((groupEligible subevent_id orders).raffle_tickets.map Prod.fst).Nodup ∧
    List.Perm (mapMembers (groupEligible subevent_id orders).raffle_tickets)
      ((eligible_orders subevent_id orders).filter fun o =>
        o.raffle_override != some MODE_NEVER &&
        !keyRemoved (groupEligible subevent_id orders).clique_ids_remove
          (unitKey o)) ∧
    (orders_to_approve subevent_id orders ro raffle_size).Nodup := by
  have hKC : KeyConsistent (groupEligible subevent_id orders).raffle_tickets :=
    keyConsistent_groupEligible subevent_id orders
  have hkeysnd :
      ((groupEligible subevent_id orders).raffle_tickets.map Prod.fst).Nodup := by
    rw [groupEligible_tickets, keys_filter_keys]
    exact (nodup_keys_resolveOrders state0 _ (by simp [state0])).filter _
  have hperm := mapMembers_groupEligible_perm subevent_id orders
  refine ⟨hKC, hkeysnd, hperm, ?_⟩
  have hmembernd :
      (mapMembers (groupEligible subevent_id orders).raffle_tickets).Nodup :=
    hperm.nodup_iff.mpr (hnd.filter _)
  have h_each : ∀ v ∈ (groupEligible subevent_id orders).raffle_tickets.map
      Prod.snd, v.Nodup :=
    (List.nodup_flatten.mp hmembernd).1
  obtain ⟨p, q, rfl, hp, hq⟩ := hro
  have hprefnd :
      (groupEligible subevent_id orders).raffle_keys_prefer.Nodup := by
    rw [groupEligible_prefer]
    exact (nodup_prefer_resolveOrders state0 _ (by simp [state0])).filter _
  have hpnd : p.Nodup := hp.nodup_iff.mpr hprefnd
  have hqnd : q.Nodup := by
    refine hq.nodup_iff.mpr ?_
    unfold raffle_keys_not_preferred
    exact hkeysnd.filter _
  have hdisj : p.Disjoint q := by
    intro k hkp hkq
    have hk1 : k ∈ (groupEligible subevent_id orders).raffle_keys_prefer :=
      hp.subset hkp
    have hk2 := hq.subset hkq
    unfold raffle_keys_not_preferred at hk2
    have := List.of_mem_filter hk2
    simp at this
    exact this hk1
  have hrond : (p ++ q).Nodup := hpnd.append hqnd hdisj
  rw [orders_to_approve, selectLoop_eq_flatten]
  apply List.nodup_flatten.mpr
  constructor
  · intro v hv
    rw [List.mem_map] at hv
    obtain ⟨k, _, rfl⟩ := hv
    rcases lookupTickets_eq_nil_or_mem
        (groupEligible subevent_id orders).raffle_tickets k with h | h
    · rw [h]
      exact List.nodup_nil
    · exact h_each _ h
  · rw [List.pairwise_map]
    have htknd : ((p ++ q).take
        (admitCount (groupEligible subevent_id orders).raffle_tickets
          subevent_id (p ++ q) raffle_size)).Nodup :=
      hrond.sublist (List.take_sublist _ _)
    refine List.Pairwise.imp ?_ htknd
    intro a b hab x hxa hxb
    exact hab ((unitKey_of_mem_lookup _ hKC a x hxa).symm.trans
      (unitKey_of_mem_lookup _ hKC b x hxb))

/-- C8 witness: the partition and no-duplicate properties on a concrete
snapshot with one clique and one singleton. -/
theorem claim_C8_witness :
    KeyConsistent (groupEligible (some 1)
      [sampleNever, sampleCliqueAlways, samplePlain]).raffle_tickets ∧
    ((groupEligible (some 1)
      [sampleNever, sampleCliqueAlways, samplePlain]).raffle_tickets.map
        Prod.fst).Nodup ∧
    List.Perm (mapMembers (groupEligible (some 1)
      [sampleNever, sampleCliqueAlways, samplePlain]).raffle_tickets)
      ((eligible_orders (some 1)
        [sampleNever, sampleCliqueAlways, samplePlain]).filter fun o =>
          o.raffle_override != some MODE_NEVER &&
          !keyRemoved (groupEligible (some 1)
            [sampleNever, sampleCliqueAlways, samplePlain]).clique_ids_remove
            (unitKey o)) ∧
    (orders_to_approve (some 1) [sampleNever, sampleCliqueAlways, samplePlain]
      [UnitKey.order "P"] 5).Nodup :=
  claim_C8 (some 1) [sampleNever, sampleCliqueAlways, samplePlain]
    [UnitKey.order "P"] 5 (by decide)
    ⟨[], [UnitKey.order "P"], rfl, by decide, by decide⟩

/-- C1 counterexample: `sampleAlways` forms a preferred unit (ALWAYS
override, no NEVER member), yet with `raffle_size = 0` the selection loop
(`while raffle_order and approvals_left > 0`) never runs, so the admitted
list is empty instead of containing the preferred unit's member: the
ALWAYS guarantee does not hold for a non-positive quota. -/
theorem claim_C1_counterexample :
    (groupEligible (some 1) [sampleAlways]).raffle_keys_prefer =
      [UnitKey.order "A"] ∧
    lookupTickets (groupEligible (some 1) [sampleAlways]).raffle_tickets
      (UnitKey.order "A") = [sampleAlways] ∧
    ValidRaffleOrder (groupEligible (some 1) [sampleAlways])
      [UnitKey.order "A"] ∧
    orders_to_approve (some 1) [sampleAlways] [UnitKey.order "A"] 0 = [] ∧
    sampleAlways ∉
      orders_to_approve (some 1) [sampleAlways] [UnitKey.order "A"] 0 := by
  refine ⟨rfl, rfl,
    ⟨[UnitKey.order "A"], [], rfl, List.Perm.refl _, List.Perm.refl _⟩,
    rfl, by decide⟩

/-- C1 amended: preferred units are placed before all non-preferred units
in the selection order, and a unit containing an ALWAYS member (and not
voided by a NEVER member) is fully admitted exactly when the while-loop
reaches it with a strictly positive remaining quota — that is, when the
ticket total of the units before it is below `raffle_size`; with
`raffle_size ≤ 0` the admitted list is empty, preferred units
included. -/
theorem claim_C1_amended (subevent_id : Option Nat) (orders : List Order)
    (p q : List UnitKey) (raffle_size : Int)
    (hp : List.Perm p (groupEligible subevent_id orders).raffle_keys_prefer)
    (hq : List.Perm q
      (raffle_keys_not_preferred (groupEligible subevent_id orders)))
    (o : Order) (ho : o ∈ eligible_orders subevent_id orders)
    (hA : o.raffle_override = some MODE_ALWAYS)
    (hnr : keyRemoved (groupEligible subevent_id orders).clique_ids_remove
      (unitKey o) = false) :
    (raffle_size ≤ 0 →
      orders_to_approve subevent_id orders (p ++ q) raffle_size = []) ∧
    unitKey o ∈ p ∧
    (∀ j, ∀ hj : j < (p ++ q).length, (p ++ q)[j] = unitKey o →
      (ticketsBefore (groupEligible subevent_id orders).raffle_tickets
        subevent_id (p ++ q) j : Int) < raffle_size →
      ∀ x ∈ lookupTickets (groupEligible subevent_id orders).raffle_tickets
        (unitKey o),
        x ∈ orders_to_approve subevent_id orders (p ++ q) raffle_size) := by
  refine ⟨?_, ?_, ?_⟩
  · intro h0
    exact selectLoop_of_nonpos _ _ _ h0
  · have hpre : unitKey o ∈
        (resolveOrders state0
          (eligible_orders subevent_id orders)).raffle_keys_prefer :=
      (mem_prefer_resolveOrders state0 _ _).mpr (Or.inr ⟨o, ho, hA, rfl⟩)
    have hpost : unitKey o ∈
        (groupEligible subevent_id orders).raffle_keys_prefer := by
      rw [groupEligible_prefer]
      refine List.mem_filter.mpr ⟨hpre, ?_⟩
      rw [groupEligible_remove] at hnr
      simp [hnr]
    exact hp.mem_iff.mpr hpost
  · intro j hj hk hlt x hx
    rw [orders_to_approve]
    exact lookup_subset_selectLoop _ _ _ _ j hj hlt x (by rw [hk]; exact hx)

/-- C1 amended witness: with quota 1 the preferred singleton unit is
fully admitted; the degenerate quota conclusion holds vacuously. -/
theorem claim_C1_amended_witness :
    ((1 : Int) ≤ 0 →
      orders_to_approve (some 1) [sampleAlways]
        ([UnitKey.order "A"] ++ []) 1 = []) ∧
    unitKey sampleAlways ∈ [UnitKey.order "A"] ∧
    (∀ j, ∀ hj : j < ([UnitKey.order "A"] ++ []).length,
      ([UnitKey.order "A"] ++ [])[j] = unitKey sampleAlways →
      (ticketsBefore (groupEligible (some 1) [sampleAlways]).raffle_tickets
        (some 1) ([UnitKey.order "A"] ++ []) j : Int) < 1 →
      ∀ x ∈ lookupTickets
        (groupEligible (some 1) [sampleAlways]).raffle_tickets
        (unitKey sampleAlways),
        x ∈ orders_to_approve (some 1) [sampleAlways]
          ([UnitKey.order "A"] ++ []) 1) :=
  claim_C1_amended (some 1) [sampleAlways] [UnitKey.order "A"] [] 1
    (List.Perm.refl _) (List.Perm.refl _) sampleAlways (by decide) rfl rfl

/-! ## The two batch executors -/

theorem approveCalls_append (t1 t2 : List ExecEvent) :
    approveCalls (t1 ++ t2) = approveCalls t1 ++ approveCalls t2 := by
  induction t1 with
  | nil => rfl
  | cons e rest ih => cases e <;> simp [approveCalls, ih]

theorem progressValues_append (t1 t2 : List ExecEvent) :
    progressValues (t1 ++ t2) = progressValues t1 ++ progressValues t2 := by
  induction t1 with
  | nil => rfl
  | cons e rest ih => cases e <;> simp [progressValues, ih]

theorem approveCalls_approveStep (fail : Order → Option String) (n i : Nat)
    (o : Order) : approveCalls (approveStep fail n i o) = [o.code] := by
  unfold approveStep
  cases hf : fail o <;> by_cases hi : (i % 50 == 0) = true <;>
    simp [approveCalls, approveCalls_append, hi]

theorem progressValues_approveStep (fail : Order → Option String) (n i : Nat)
    (o : Order) :
    progressValues (approveStep fail n i o) =
      if (i % 50 == 0) = true then [progressPct i n] else [] := by
  unfold approveStep
  cases hf : fail o <;> by_cases hi : (i % 50 == 0) = true <;>
    simp [progressValues, progressValues_append, hi]

theorem approveCalls_approveLoop (fail : Order → Option String) (n : Nat) :
    ∀ (i : Nat) (l : List Order),
      approveCalls (approveLoop fail n i l) = l.map Order.code := by
  intro i l
  induction l generalizing i with
  | nil => rfl
  | cons o rest ih =>
    rw [approveLoop, approveCalls_append, approveCalls_approveStep, ih,
      List.map_cons]
    rfl

theorem failLog_mem_approveLoop (fail : Order → Option String) (n : Nat)
    (o : Order) (e : String) (he : fail o = some e) :
    ∀ (i : Nat) (l : List Order), o ∈ l →
      ExecEvent.approveFailLog o.code e ∈ approveLoop fail n i l := by
  intro i l
  induction l generalizing i with
  | nil =>
    intro ho
    simp at ho
  | cons o' rest ih =>
    intro ho
    rw [approveLoop, List.mem_append]
    rcases List.mem_cons.mp ho with rfl | ho'
    · left
      unfold approveStep
      rw [he]
      simp
    · exact Or.inr (ih (i + 1) ho')

theorem progressValues_approveLoop (fail : Order → Option String) (n : Nat) :
    ∀ (i : Nat) (l : List Order),
      progressValues (approveLoop fail n i l) =
        ((List.range' i l.length).filter fun j => j % 50 == 0).map
          fun j => progressPct j n := by
  intro i l
  induction l generalizing i with
  | nil => rfl
  | cons o rest ih =>
    rw [approveLoop, progressValues_append, progressValues_approveStep, ih,
      List.length_cons, List.range'_succ i rest.length 1, List.filter_cons]
    by_cases hi : (i % 50 == 0) = true <;> simp [hi]

theorem progressValues_denyLoop (n : Nat) :
    ∀ (i : Nat) (l : List Order),
      progressValues (denyLoop n i l) =
        ((List.range' i l.length).filter fun j => j % 50 == 0).map
          fun j => progressPct j n := by
  intro i l
  induction l generalizing i with
  | nil => rfl
  | cons o rest ih =>
    show progressValues (ExecEvent.denyCall o.code ::
      ((if (i % 50 == 0) = true then [ExecEvent.progress (progressPct i n)]
        else []) ++ denyLoop n (i + 1) rest)) = _
    rw [show progressValues (ExecEvent.denyCall o.code ::
        ((if (i % 50 == 0) = true then [ExecEvent.progress (progressPct i n)]
          else []) ++ denyLoop n (i + 1) rest)) =
        progressValues ((if (i % 50 == 0) = true then
          [ExecEvent.progress (progressPct i n)] else []) ++
          denyLoop n (i + 1) rest) from rfl,
      progressValues_append, ih, List.length_cons,
      List.range'_succ i rest.length 1, List.filter_cons]
    by_cases hi : (i % 50 == 0) = true <;> simp [hi, progressValues]

theorem round_rat_mono {a b : ℚ} (h : a ≤ b) : round a ≤ round b := by
  rw [round_eq, round_eq]
  exact Int.floor_le_floor (by linarith)

theorem progressPct_nonneg (i n : Nat) : 0 ≤ progressPct i n := by
  unfold progressPct round2
  have h0 : (0 : ℚ) ≤ (i : ℚ) / (n : ℚ) * 100 * 100 := by positivity
  have h1 : (0 : ℤ) ≤ round ((i : ℚ) / (n : ℚ) * 100 * 100) := by
    have := round_rat_mono h0
    simpa using this
  have h2 : (0 : ℚ) ≤ ((round ((i : ℚ) / (n : ℚ) * 100 * 100) : ℤ) : ℚ) := by
    exact_mod_cast h1
  linarith

theorem progressPct_le_100 {i n : Nat} (h : i ≤ n) :
    progressPct i n ≤ 100 := by
  unfold progressPct round2
  have harg : (i : ℚ) / (n : ℚ) * 100 * 100 ≤ 10000 := by
    rcases Nat.eq_zero_or_pos n with rfl | hn
    · simp
    · have hn' : (0 : ℚ) < (n : ℚ) := by exact_mod_cast hn
      have hdiv : (i : ℚ) / (n : ℚ) ≤ 1 := by
        rw [div_le_one hn']
        exact_mod_cast h
      nlinarith
  have h1 : round ((i : ℚ) / (n : ℚ) * 100 * 100) ≤ round (10000 : ℚ) :=
    round_rat_mono harg
  have h10 : round (10000 : ℚ) = 10000 := by norm_num
  rw [h10] at h1
  have h2 : ((round ((i : ℚ) / (n : ℚ) * 100 * 100) : ℤ) : ℚ) ≤ 10000 := by
    exact_mod_cast h1
  linarith

theorem progressPct_mono {i j n : Nat} (h : i ≤ j) :
    progressPct i n ≤ progressPct j n := by
  unfold progressPct round2
  have harg : (i : ℚ) / (n : ℚ) * 100 * 100 ≤
      (j : ℚ) / (n : ℚ) * 100 * 100 := by
    rcases Nat.eq_zero_or_pos n with rfl | hn
    · simp
    · have hn' : (0 : ℚ) < (n : ℚ) := by exact_mod_cast hn
      have hij : (i : ℚ) ≤ (j : ℚ) := by exact_mod_cast h
      have hdd : (i : ℚ) / (n : ℚ) ≤ (j : ℚ) / (n : ℚ) :=
        (div_le_div_iff_of_pos_right hn').mpr hij
      nlinarith
  have h1 := round_rat_mono harg
  have h2 : ((round ((i : ℚ) / (n : ℚ) * 100 * 100) : ℤ) : ℚ) ≤
      ((round ((j : ℚ) / (n : ℚ) * 100 * 100) : ℤ) : ℚ) := by
    exact_mod_cast h1
  linarith

theorem progressList_bounds (n : Nat) (v : ℚ)
    (hv : v ∈ (0 : ℚ) :: (((List.range n).filter fun j => j % 50 == 0).map
      fun j => progressPct j n)) : 0 ≤ v ∧ v ≤ 100 := by
  rcases List.mem_cons.mp hv with rfl | hv'
  · norm_num
  · rw [List.mem_map] at hv'
    obtain ⟨j, hj, rfl⟩ := hv'
    have hjn : j < n := List.mem_range.mp (List.mem_of_mem_filter hj)
    exact ⟨progressPct_nonneg j n, progressPct_le_100 hjn.le⟩

theorem progressList_chain (n : Nat) :
    List.Chain' (· ≤ ·)
      ((0 : ℚ) :: (((List.range n).filter fun j => j % 50 == 0).map
        fun j => progressPct j n)) := by
  apply List.Pairwise.chain'
  rw [List.pairwise_cons]
  constructor
  · intro v hv
    rw [List.mem_map] at hv
    obtain ⟨j, _, rfl⟩ := hv
    exact progressPct_nonneg j n
  · rw [List.pairwise_map]
    exact ((List.pairwise_lt_range n).filter _).imp
      fun hab => progressPct_mono hab.le

theorem progressValues_approveExecTrace (fail : Order → Option String)
    (l : List Order) :
    progressValues (approveExecTrace fail l) =
      0 :: (((List.range l.length).filter fun j => j % 50 == 0).map
        fun j => progressPct j l.length) := by
  unfold approveExecTrace
  rw [show progressValues (ExecEvent.progress 0 ::
      approveLoop fail l.length 0 l) =
      0 :: progressValues (approveLoop fail l.length 0 l) from rfl]
  rw [progressValues_approveLoop, ← List.range_eq_range']

theorem progressValues_rejectionTrace (subevent_id : Option Nat)
    (orders : List Order) :
    progressValues (run_rejection_result subevent_id orders).1 =
      0 :: (((List.range (rejection_orders subevent_id orders).length).filter
        fun j => j % 50 == 0).map
        fun j => progressPct j (rejection_orders subevent_id orders).length) := by
  rw [show (run_rejection_result subevent_id orders).1 =
      ExecEvent.progress 0 ::
        denyLoop (rejection_orders subevent_id orders).length 0
          (rejection_orders subevent_id orders) from rfl]
  rw [show progressValues (ExecEvent.progress 0 ::
      denyLoop (rejection_orders subevent_id orders).length 0
        (rejection_orders subevent_id orders)) =
      0 :: progressValues
        (denyLoop (rejection_orders subevent_id orders).length 0
          (rejection_orders subevent_id orders)) from rfl]
  rw [progressValues_denyLoop, ← List.range_eq_range']

/-- C6: the approval executor invokes `approve_order` once for every
admitted order, in list order and regardless of which calls fail; a
failing call (the oracle `fail` returning an `OrderError` detail) is
recorded as an audit-log event while the batch continues; and the run's
return value is the number of orders attempted, independent of the
failure oracle. -/
theorem claim_C6 (fail : Order → Option String) (subevent_id : Option Nat)
    (orders : List Order) (raffle_order : List UnitKey) (raffle_size : Int) :
    approveCalls (approveExecTrace fail
        (orders_to_approve subevent_id orders raffle_order raffle_size)) =
      (orders_to_approve subevent_id orders raffle_order raffle_size).map
        Order.code ∧
    (∀ o ∈ orders_to_approve subevent_id orders raffle_order raffle_size,
      ∀ e, fail o = some e →
        ExecEvent.approveFailLog o.code e ∈
          approveExecTrace fail
            (orders_to_approve subevent_id orders raffle_order raffle_size)) ∧
    (run_raffle_result fail subevent_id orders raffle_order raffle_size).2 =
      (orders_to_approve subevent_id orders raffle_order raffle_size).length := by
  refine ⟨?_, ?_, rfl⟩
  · exact approveCalls_approveLoop fail _ 0 _
  · intro o ho e he
    exact List.mem_cons_of_mem _
      (failLog_mem_approveLoop fail _ o e he 0 _ ho)

/-- C7: both executors emit a progress update before the loop and at
every 50th item, with value `round(i / n * 100, 2)`; every emitted value
lies in [0, 100]; the emitted sequence is non-decreasing; and each run's
terminal report is the integer count of items processed. -/
theorem claim_C7 (fail : Order → Option String) (subevent_id : Option Nat)
    (orders : List Order) (raffle_order : List UnitKey) (raffle_size : Int)
    (h1 : orders_to_approve subevent_id orders raffle_order raffle_size ≠ [])
    (h2 : rejection_orders subevent_id orders ≠ []) :
    progressValues
        (run_raffle_result fail subevent_id orders raffle_order raffle_size).1 =
      0 :: (((List.range (orders_to_approve subevent_id orders raffle_order
        raffle_size).length).filter fun j => j % 50 == 0).map
        fun j => progressPct j (orders_to_approve subevent_id orders
          raffle_order raffle_size).length) ∧
    (∀ v ∈ progressValues
        (run_raffle_result fail subevent_id orders raffle_order raffle_size).1,
      0 ≤ v ∧ v ≤ 100) ∧
    List.Chain' (· ≤ ·) (progressValues
      (run_raffle_result fail subevent_id orders raffle_order raffle_size).1) ∧
    (run_raffle_result fail subevent_id orders raffle_order raffle_size).2 =
      (orders_to_approve subevent_id orders raffle_order raffle_size).length ∧
    progressValues (run_rejection_result subevent_id orders).1 =
      0 :: (((List.range (rejection_orders subevent_id orders).length).filter
        fun j => j % 50 == 0).map
        fun j => progressPct j (rejection_orders subevent_id orders).length) ∧
    (∀ v ∈ progressValues (run_rejection_result subevent_id orders).1,
      0 ≤ v ∧ v ≤ 100) ∧
    List.Chain' (· ≤ ·)
      (progressValues (run_rejection_result subevent_id orders).1) ∧
    (run_rejection_result subevent_id orders).2 =
      (rejection_orders subevent_id orders).length := by
  have ha : progressValues
      (run_raffle_result fail subevent_id orders raffle_order raffle_size).1 =
      0 :: (((List.range (orders_to_approve subevent_id orders raffle_order
        raffle_size).length).filter fun j => j % 50 == 0).map
        fun j => progressPct j (orders_to_approve subevent_id orders
          raffle_order raffle_size).length) :=
    progressValues_approveExecTrace fail
      (orders_to_approve subevent_id orders raffle_order raffle_size)
  have hr := progressValues_rejectionTrace subevent_id orders
  refine ⟨ha, ?_, ?_, rfl, hr, ?_, ?_, rfl⟩
  · intro v hv
    rw [ha] at hv
    exact progressList_bounds _ v hv
  · rw [ha]
    exact progressList_chain _
  · intro v hv
    rw [hr] at hv
    exact progressList_bounds _ v hv
  · rw [hr]
    exact progressList_chain _

/-- C7 witness: both executors on a concrete one-order snapshot. -/
theorem claim_C7_witness :
    progressValues
        (run_raffle_result (fun _ => none) (some 1) [samplePlain]
          [UnitKey.order "P"] 1).1 =
      0 :: (((List.range (orders_to_approve (some 1) [samplePlain]
        [UnitKey.order "P"] 1).length).filter fun j => j % 50 == 0).map
        fun j => progressPct j (orders_to_approve (some 1) [samplePlain]
          [UnitKey.order "P"] 1).length) ∧
    (∀ v ∈ progressValues
        (run_raffle_result (fun _ => none) (some 1) [samplePlain]
          [UnitKey.order "P"] 1).1,
      0 ≤ v ∧ v ≤ 100) ∧
    List.Chain' (· ≤ ·) (progressValues
      (run_raffle_result (fun _ => none) (some 1) [samplePlain]
        [UnitKey.order "P"] 1).1) ∧
    (run_raffle_result (fun _ => none) (some 1) [samplePlain]
        [UnitKey.order "P"] 1).2 =
      (orders_to_approve (some 1) [samplePlain] [UnitKey.order "P"] 1).length ∧
    progressValues (run_rejection_result (some 1) [samplePlain]).1 =
      0 :: (((List.range (rejection_orders (some 1) [samplePlain]).length).filter
        fun j => j % 50 == 0).map
        fun j => progressPct j (rejection_orders (some 1) [samplePlain]).length) ∧
    (∀ v ∈ progressValues (run_rejection_result (some 1) [samplePlain]).1,
      0 ≤ v ∧ v ≤ 100) ∧
    List.Chain' (· ≤ ·)
      (progressValues (run_rejection_result (some 1) [samplePlain]).1) ∧
    (run_rejection_result (some 1) [samplePlain]).2 =
      (rejection_orders (some 1) [samplePlain]).length :=
  claim_C7 (fun _ => none) (some 1) [samplePlain] [UnitKey.order "P"] 1
    (by decide) (by decide)

end PretixCliques
